import Mathlib

/-!
Verification development for the `multiqueue_experiments` benchmark harness.

Each section shallowly embeds the part of one C++ source file that the
corresponding specification sentences describe:

* `StressTest` — `stress_test.cpp` (quality-log value packing).
* `ThroughputBench` — `src/throughput.cpp` (settings validation, result
  aggregation, split-mode pop accounting, workload generation).
* `ShortestPath` — `benchmarks/shortest_path.cpp` (distance relaxation,
  idle/termination protocol, DIMACS graph reader).

Machine integers are embedded as `Nat` with explicit `% 2^w` reductions at
the places where the C++ arithmetic can wrap.
-/

namespace StressTest

/-- `std::numeric_limits<unsigned long>::digits` on the benchmark platform. -/
def valueDigits : Nat := 64

/-- `bits_for_thread_id` from `stress_test.cpp`. -/
def bitsForThreadId : Nat := 8

/-- `value_mask = (1 << (digits - bits_for_thread_id)) - 1`. -/
def value_mask : Nat := (1 <<< (valueDigits - bitsForThreadId)) - 1

/-- `to_value(thread_id, elem_id)`: pack a thread id into the top 8 bits and
the element id into the remaining low bits (`unsigned long` arithmetic,
hence the final reduction modulo `2^64`). -/
def to_value (thread_id : Nat) (elem_id : Nat) : Nat :=
  (((thread_id <<< (valueDigits - bitsForThreadId)) % 2 ^ 64) |||
    (elem_id &&& value_mask)) % 2 ^ 64

/-- `get_thread_id(value)`: the top 8 bits. -/
def get_thread_id (value : Nat) : Nat :=
  value >>> (valueDigits - bitsForThreadId)

/-- `get_elem_id(value)`: the low bits under the mask. -/
def get_elem_id (value : Nat) : Nat :=
  value &&& value_mask

/-- The quality-mode thread-count guard in `main`
(`settings.num_threads > (1 << bits_for_thread_id) - 1` exits with 1). -/
def qualityThreadGuardExitCode (num_threads : Nat) : Option Nat :=
  if num_threads > (1 <<< bitsForThreadId) - 1 then some 1 else none

end StressTest

namespace ThroughputBench

/-- `Settings::WorkMode`. -/
inductive WorkMode where
  | Mixed : WorkMode
  | Split : WorkMode
deriving DecidableEq

/-- `Settings::ElementDistribution`. -/
inductive ElementDistribution where
  | Uniform : ElementDistribution
  | Ascending : ElementDistribution
  | Descending : ElementDistribution
deriving DecidableEq

/-- The settings fields of `throughput.cpp` that `validate` consults.
`num_threads` and `num_push_threads` are C++ `int`, embedded as `Int`;
the size and key fields are unsigned, embedded as `Nat`. -/
structure Settings where
  num_threads : Int
  prefill_per_thread : Nat
  elements_per_thread : Nat
  work_mode : WorkMode
  num_push_threads : Int
  element_distribution : ElementDistribution
  min_key : Nat
  max_key : Nat
  seed : Int

/-- `Settings::validate` from `throughput.cpp`, clause for clause
(the source states the split/no-push-threads/nonzero-elements rejection
twice; both occurrences are kept). -/
def Settings.validate (s : Settings) : Bool :=
  if s.num_threads ≤ 0 then false
  else if s.min_key > s.max_key then false
  else if s.work_mode = WorkMode.Split ∧
      ((s.num_push_threads < 0 ∨ s.num_push_threads > s.num_threads) ∨
        (s.num_push_threads = 0 ∧ s.elements_per_thread > 0)) then false
  else if s.work_mode = WorkMode.Split ∧ s.num_push_threads = 0 ∧
      s.elements_per_thread > 0 then false
  else true

/-- The configuration gate in `main` (`if (!settings.validate()) return 1;`),
which runs before any worker thread is created: `some 1` means the process
exits with code 1 at configuration time. -/
def configExitCode (s : Settings) : Option Nat :=
  if s.validate then none else some 1

/-- `timepoint_type::max()` (steady-clock time point over an `int64`
nanosecond count). -/
def timepointMax : Int := 2 ^ 63 - 1

/-- `timepoint_type::min()`. -/
def timepointMin : Int := -(2 ^ 63)

/-- The two work-time fields of `Result`, with their initializers. -/
structure WorkTime where
  start_time : Int
  end_time : Int
deriving DecidableEq

/-- Initial `Result` work-time state:
`start_time{timepoint_type::max()}, end_time{timepoint_type::min()}`. -/
def WorkTime.initial : WorkTime := ⟨timepointMax, timepointMin⟩

/-- `Result::update_work_time`, executed sequentially (the calls are
serialized here; the CAS loops then run to completion in one call).
Note the source's second loop seeds `old_end` from `start_time`
(`auto old_end = start_time.load(...)`), not from `end_time`; the
embedding reproduces that read and the resulting control flow:
the loop body is skipped entirely when `work_time.second` does not
exceed the freshly updated `start_time`. -/
def updateWorkTime (s : WorkTime) (work_time : Int × Int) : WorkTime :=
  let start' := if work_time.1 < s.start_time then work_time.1 else s.start_time
  let old_end := start'
  let end' :=
    if work_time.2 > old_end then
      if s.end_time = old_end then work_time.2
      else if work_time.2 > s.end_time then work_time.2 else s.end_time
    else s.end_time
  ⟨start', end'⟩

/-- The aggregate work-time state after every worker has reported its
interval (workers call `update_work_time` once each; the multiset of calls
is a list here). -/
def aggregateWorkTime (intervals : List (Int × Int)) : WorkTime :=
  intervals.foldl updateWorkTime WorkTime.initial

/-- Local state of one pop-only worker inside `execute_split_pop`:
`pending` is the batch count `num_pops` accumulated by the inner
`while (handle.try_pop(retval))` loop and not yet added to
`Result::num_pops`; `stopped` records that the worker has exited the outer
`do`/`while` loop via one of the two `break`s. -/
structure PopWorker where
  pending : Nat
  stopped : Bool
deriving DecidableEq

/-- Global state of a split-mode run as far as the pop accounting is
concerned: `pushed` counts elements inserted so far (prefill plus the push
phase), `queueSize` the elements currently in the queue, `num_pops` the
shared `Result::num_pops` counter, and `workers` the pop-only workers. -/
structure SplitPopState where
  pushed : Nat
  queueSize : Nat
  num_pops : Nat
  workers : List PopWorker
deriving DecidableEq

/-- Interleaved steps of a split-mode run with pop target `target`
(`target = (prefill_per_thread + elements_per_thread) * num_threads` is
also the total number of elements ever inserted, so `push` is enabled only
while `pushed < target`).

* `push` — a prefill or push-phase insertion commits.
* `popOne` — a pop worker's `handle.try_pop` succeeds, extending its batch.
* `zeroCheckStop` — the batch ended empty (`num_pops == 0`); the worker
  loads `Result::num_pops`, finds it at or above `num_elements`, breaks
  (`throughput.cpp` line 218-221).  A failed check just repeats the loop
  and changes no state, so it needs no transition.
* `batchStop` / `batchCont` — the batch ended non-empty; the worker
  `fetch_add`s it and breaks iff the summed value reaches `num_elements`
  (lines 222-226). -/
inductive SplitPopStep (target : Nat) : SplitPopState → SplitPopState → Prop where
  | push (s : SplitPopState) :
      s.pushed < target →
      SplitPopStep target s ⟨s.pushed + 1, s.queueSize + 1, s.num_pops, s.workers⟩
  | popOne (s : SplitPopState) (w : Nat) (pw : PopWorker) :
      s.workers.get? w = some pw → pw.stopped = false → 0 < s.queueSize →
      SplitPopStep target s
        ⟨s.pushed, s.queueSize - 1, s.num_pops, s.workers.set w ⟨pw.pending + 1, false⟩⟩
  | zeroCheckStop (s : SplitPopState) (w : Nat) (pw : PopWorker) :
      s.workers.get? w = some pw → pw.stopped = false → pw.pending = 0 →
      target ≤ s.num_pops →
      SplitPopStep target s
        ⟨s.pushed, s.queueSize, s.num_pops, s.workers.set w ⟨0, true⟩⟩
  | batchStop (s : SplitPopState) (w : Nat) (pw : PopWorker) :
      s.workers.get? w = some pw → pw.stopped = false → 0 < pw.pending →
      target ≤ s.num_pops + pw.pending →
      SplitPopStep target s
        ⟨s.pushed, s.queueSize, s.num_pops + pw.pending, s.workers.set w ⟨0, true⟩⟩
  | batchCont (s : SplitPopState) (w : Nat) (pw : PopWorker) :
      s.workers.get? w = some pw → pw.stopped = false → 0 < pw.pending →
      s.num_pops + pw.pending < target →
      SplitPopStep target s
        ⟨s.pushed, s.queueSize, s.num_pops + pw.pending, s.workers.set w ⟨0, false⟩⟩

/-- Start of a split-mode run with `numPopWorkers` pop-only workers:
nothing inserted or popped yet, every worker in its loop with an empty
batch. -/
def initSplitPop (numPopWorkers : Nat) : SplitPopState :=
  ⟨0, 0, 0, List.replicate numPopWorkers ⟨0, false⟩⟩

/-- Sum of the not-yet-reported batch counts. -/
def pendingSum (ws : List PopWorker) : Nat :=
  (ws.map PopWorker.pending).sum

/-- Accounting invariant of a split-mode run: the shared counter, the
unreported batches and the queue contents add up to the number of
inserted elements; at most `target` elements are ever inserted; and a
worker only breaks out of its loop once the shared counter equals
`target`. -/
def SplitPopInv (target : Nat) (s : SplitPopState) : Prop :=
  s.num_pops + pendingSum s.workers + s.queueSize = s.pushed ∧
  s.pushed ≤ target ∧
  ∀ pw ∈ s.workers, pw.stopped = true → s.num_pops = target

/-- Reduction modulo `2^64` (for `unsigned long` / `std::size_t`). -/
def u64 (n : Nat) : Nat := n % 2 ^ 64

/-- The slice of the shared `keys` array that `generate_workload` fills
for worker `id` (global indices `id * elements_per_thread + j` for
`j < elements_per_thread`).  `totalKeys` is `keys.size()`.  The uniform
branch draws from `std::uniform_int_distribution` over the seeded
per-worker engine; that external deterministic generator is abstracted as
the draw stream `draw` (its `j`-th output for this worker).  The ascending
and descending branches are the source formulas in 64-bit arithmetic;
`range` may wrap exactly as `max_key - min_key + 1` does (the driver has
validated `min_key ≤ max_key`). -/
def generateWorkloadSlice (dist : ElementDistribution) (min_key max_key : Nat)
    (elements_per_thread totalKeys : Nat) (id : Nat) (draw : Nat → Nat) : List Nat :=
  (List.range elements_per_thread).map fun j =>
    let i := id * elements_per_thread + j
    match dist with
    | ElementDistribution.Uniform => draw j
    | ElementDistribution.Ascending =>
        let range := (max_key - min_key + 1) % 2 ^ 64
        u64 (min_key + u64 (i * range) / totalKeys)
    | ElementDistribution.Descending =>
        let range := (max_key - min_key + 1) % 2 ^ 64
        u64 (min_key + u64 ((totalKeys - i - 1) * range) / totalKeys)

end ThroughputBench

namespace ShortestPath

/-- `UINT32_MAX - 1`, the initial distance value. -/
def initDistValue : Nat := 2 ^ 32 - 2

/-- The distance array right after the per-run initialization loop
(`shortest_path.cpp` lines 289-291): every one of the `n` cells holds
`UINT32_MAX - 1`. -/
def initDistances (n : Nat) : List Nat := List.replicate n initDistValue

/-- The distance array after the main worker has stored
`distances[0] = 0` (line 89; node 0 is the source). -/
def sourcedDistances (n : Nat) : List Nat := (initDistances n).set 0 0

/-- A committed write to the distance array during the run: the CAS loop
of lines 114-119 commits `new` into cell `v` only when the loaded value
`old` strictly exceeds it. -/
inductive DistStep : List Nat → List Nat → Prop where
  | relax (d : List Nat) (v new old : Nat) :
      d.get? v = some old → new < old → DistStep d (d.set v new)

/-- The cumulative `(target, weight)` edge array and the per-node offsets
of the CSR graph built by `read_graph`. -/
structure Graph where
  nodes : List Nat
  edges : List (Nat × Nat)

/-- The out-edges scanned by the worker loop for node `u`:
`edges[nodes[u] .. nodes[u+1])`. -/
def outEdges (g : Graph) (u : Nat) : List (Nat × Nat) :=
  (g.edges.drop (g.nodes.getD u 0)).take (g.nodes.getD (u + 1) 0 - g.nodes.getD u 0)

/-- The edge loop of `Task::run` (lines 111-124) for one popped element,
with the CAS loop run to completion at each edge: for edge `(v, w)` the
new distance is `current_distance + weight` in `uint32` arithmetic, and
the decrease commits iff the current value of `distances[v]` strictly
exceeds it, in which case `(new, v)` is pushed.  Returns the distance
array, the pushed pairs in order, and the `pushed` flag. -/
def relaxLoop (dist : List Nat) (es : List (Nat × Nat)) (cur : Nat) :
    List Nat × List (Nat × Nat) × Bool :=
  match es with
  | [] => (dist, [], false)
  | (v, w) :: rest =>
    let nd := (cur + w) % 2 ^ 32
    let old := dist.getD v 0
    if nd < old then
      let out := relaxLoop (dist.set v nd) rest cur
      (out.1, (nd, v) :: out.2.1, true)
    else
      relaxLoop dist rest cur

/-- Processing of one successfully popped element `(d, u)` by the worker
loop (lines 101-124): load `current_distance = distances[u]`; if
`d > current_distance` the entry is stale and discarded, otherwise every
out-edge of `u` is relaxed from `current_distance`. -/
def processElement (dist : List Nat) (d u : Nat) (g : Graph) :
    List Nat × List (Nat × Nat) × Bool :=
  let current := dist.getD u 0
  if current < d then (dist, [], false)
  else relaxLoop dist (outEdges g u) current

/-- One worker of the termination-detection protocol: the stored
`idle_state[w].state` value (`0` active, `1` probing, `2` idle, `3`
wakeup — the wakeup value only exists inside a waker's compound action,
which is one step here) and whether the worker has exited the main loop. -/
structure WorkerIdle where
  state : Nat
  terminated : Bool
deriving DecidableEq

/-- Shared state of the termination-detection protocol: the global
`idle_counter` and the per-worker records. -/
structure IdleSystem where
  idle_counter : Nat
  workers : List WorkerIdle
deriving DecidableEq

/-- The contribution of one stored state value to `idle_counter`:
probing contributes 1, idle contributes 2, active and wakeup contribute
nothing. -/
def contrib (state : Nat) : Nat :=
  if state = 1 then 1 else if state = 2 then 2 else 0

/-- Sum of the per-worker contributions. -/
def contribSum (ws : List WorkerIdle) : Nat :=
  (ws.map fun pw => contrib pw.state).sum

/-- The termination-detection step relation of `shortest_path.cpp`.  Each
transition is one protocol action of a worker or waker (the code's
consecutive store/fetch-add pairs forming one action):

* `toProbing` — an active worker exhausts its pop retries: it stores
  state 1 and increments `idle_counter` (lines 152-153).
* `probeSuccess` — `extract_from_partition` found an element: the probing
  worker decrements `idle_counter` and stores state 0 (lines 157-160).
* `toIdle` — the thorough scan failed: in `idle()` the worker stores
  state 2 and increments `idle_counter` again (lines 63-64).
* `wake` — an active worker `v` that pushed new work CASes idle worker
  `w` from 2 to 3, subtracts 2 from `idle_counter` and stores 0 into
  `w`'s state (lines 131-141).
* `terminate` — a worker in the idle wait observes
  `idle_counter == 2 * num_threads` and exits the main loop (lines 66-67
  and 164-165); its stored state stays 2.

A woken worker's own resumption (observing its state already 0, line 69)
changes no shared state and so is not a transition. -/
inductive IdleStep : IdleSystem → IdleSystem → Prop where
  | toProbing (s : IdleSystem) (w : Nat) (pw : WorkerIdle) :
      s.workers.get? w = some pw → pw.state = 0 → pw.terminated = false →
      IdleStep s ⟨s.idle_counter + 1, s.workers.set w ⟨1, false⟩⟩
  | probeSuccess (s : IdleSystem) (w : Nat) (pw : WorkerIdle) :
      s.workers.get? w = some pw → pw.state = 1 →
      IdleStep s ⟨s.idle_counter - 1, s.workers.set w ⟨0, false⟩⟩
  | toIdle (s : IdleSystem) (w : Nat) (pw : WorkerIdle) :
      s.workers.get? w = some pw → pw.state = 1 →
      IdleStep s ⟨s.idle_counter + 1, s.workers.set w ⟨2, false⟩⟩
  | wake (s : IdleSystem) (v w : Nat) (pv pw : WorkerIdle) :
      v ≠ w → s.workers.get? v = some pv → pv.state = 0 → pv.terminated = false →
      s.workers.get? w = some pw → pw.state = 2 →
      IdleStep s ⟨s.idle_counter - 2, s.workers.set w ⟨0, pw.terminated⟩⟩
  | terminate (s : IdleSystem) (w : Nat) (pw : WorkerIdle) :
      s.workers.get? w = some pw → pw.state = 2 → pw.terminated = false →
      s.idle_counter = 2 * s.workers.length →
      IdleStep s ⟨s.idle_counter, s.workers.set w ⟨2, true⟩⟩

/-- Start of a run with `n` worker threads: `idle_counter = 0` and every
`idle_state` cell zero-initialized (`main`, lines 292-293). -/
def initIdle (n : Nat) : IdleSystem :=
  ⟨0, List.replicate n ⟨0, false⟩⟩

/-- One check of the wait loop in `idle()` (lines 65-73), deciding from
the two observed values: `some true` exits the loop to terminate
(`idle_counter == 2 * num_threads`), `some false` exits to resume popping
(own state reset to 0 by a waker), `none` keeps spinning. -/
def idleWaitDecision (counter numThreads ownState : Nat) : Option Bool :=
  if counter = 2 * numThreads then some true
  else if ownState = 0 then some false
  else none

/-- The whitespace class of `std::istream` token extraction. -/
def isSpace (c : Char) : Bool :=
  c = ' ' || c = '\t' || c = '\n' || c = '\x0b' || c = '\x0c' || c = '\r'

/-- `stream >> std::string`: skip whitespace, then read a maximal
non-whitespace run; fails at end of input. -/
def readToken (input : List Char) : Option (List Char × List Char) :=
  let rest := input.dropWhile isSpace
  if rest.isEmpty then none
  else some (rest.takeWhile (fun c => !isSpace c), rest.dropWhile (fun c => !isSpace c))

/-- `stream >> unsigned`: skip whitespace, then read a maximal digit run;
fails if no digit follows. -/
def readNat (input : List Char) : Option (Nat × List Char) :=
  let rest := input.dropWhile isSpace
  let digits := rest.takeWhile Char.isDigit
  if digits.isEmpty then none
  else some (digits.foldl (fun acc c => 10 * acc + (c.toNat - 48)) 0, rest.drop digits.length)

/-- `stream.ignore(max, '\n')`: discard everything up to and including
the next newline (or to end of input). -/
def dropLine (input : List Char) : List Char :=
  (input.dropWhile fun c => c ≠ '\n').drop 1

/-- The data `read_graph` accumulates while scanning: the header counts
from the `p` line and the raw `a` triples in file order.  (The claims
concern the scanner; the final bucketing of arcs into the CSR arrays,
lines 212-215, is not modelled.) -/
structure RawGraph where
  numNodes : Nat
  numEdges : Nat
  arcs : List (Nat × Nat × Nat)
deriving DecidableEq

/-- The `while (graph_stream >> first)` loop of `read_graph`
(lines 194-211), fuel-indexed: a `c` token discards the rest of the line;
a `p` token reads the problem word and the two counts; an `a` token reads
the three arc numbers; any other token throws "Error reading file".  A
failed inner extraction puts the stream into the failed state, so the
next loop condition ends the scan silently — modelled by returning the
graph read so far. -/
def readGraphLoop (fuel : Nat) (g : RawGraph) (input : List Char) : Except String RawGraph :=
  match fuel with
  | 0 => Except.ok g
  | fuel + 1 =>
    match readToken input with
    | none => Except.ok g
    | some (tok, rest) =>
      if tok = ['c'] then readGraphLoop fuel g (dropLine rest)
      else if tok = ['p'] then
        match readToken rest with
        | none => Except.ok g
        | some (_, rest1) =>
          match readNat rest1 with
          | none => Except.ok g
          | some (n, rest2) =>
            match readNat rest2 with
            | none => Except.ok g
            | some (m, rest3) =>
              readGraphLoop fuel { g with numNodes := n, numEdges := m } rest3
      else if tok = ['a'] then
        match readNat rest with
        | none => Except.ok g
        | some (u, rest1) =>
          match readNat rest1 with
          | none => Except.ok g
          | some (v, rest2) =>
            match readNat rest2 with
            | none => Except.ok g
            | some (w, rest3) =>
              readGraphLoop fuel { g with arcs := g.arcs ++ [(u, v, w)] } rest3
      else Except.error "Error reading file"

/-- `read_graph` on the full input (every loop iteration consumes at
least one character, so `length + 1` fuel always suffices). -/
def readGraph (input : List Char) : Except String RawGraph :=
  readGraphLoop (input.length + 1) ⟨0, 0, []⟩ input

/-- The graph-reading stage of `main` (lines 273-280): a throw from
`read_graph` is caught and the driver returns 1 — before any worker
thread is started.  `none` means reading succeeded. -/
def graphReadExitCode (input : List Char) : Option Nat :=
  match readGraph input with
  | Except.error _ => some 1
  | Except.ok _ => none

end ShortestPath

namespace StressTest

/-- C10: for every thread id `t < 256` and element id `e ≤ value_mask`,
the quality-log packing satisfies `get_thread_id (to_value t e) = t` and
`get_elem_id (to_value t e) = e`, and in quality mode the driver rejects
any configuration with more than 255 threads with exit code 1. -/
theorem value_packing_roundtrip (t e : Nat) (ht : t < 256) (he : e ≤ value_mask) :
    get_thread_id (to_value t e) = t ∧ get_elem_id (to_value t e) = e ∧
    ∀ n : Nat, 255 < n → qualityThreadGuardExitCode n = some 1 := by
  have hm : value_mask = 2 ^ 56 - 1 := by
    simp [value_mask, valueDigits, bitsForThreadId, Nat.shiftLeft_eq]
  have he' : e < 2 ^ 56 := by
    have h1 : (2 : Nat) ^ 56 - 1 < 2 ^ 56 := Nat.sub_lt (by positivity) one_pos
    exact Nat.lt_of_le_of_lt (hm ▸ he) h1
  have hand : e &&& value_mask = e := by
    rw [hm, Nat.and_pow_two_sub_one_eq_mod, Nat.mod_eq_of_lt he']
  have hshift : t <<< (valueDigits - bitsForThreadId) = 2 ^ 56 * t := by
    simp [valueDigits, bitsForThreadId, Nat.shiftLeft_eq, Nat.mul_comm]
  have hor : (2 ^ 56 * t) ||| e = 2 ^ 56 * t + e :=
    (Nat.mul_add_lt_is_or he' t).symm
  have hlt64 : 2 ^ 56 * t + e < 2 ^ 64 := by
    have e56 : (2 : Nat) ^ 56 = 72057594037927936 := by norm_num
    have e64 : (2 : Nat) ^ 64 = 18446744073709551616 := by norm_num
    rw [e56]; rw [e56] at he'; rw [e64]; omega
  have hsmall : 2 ^ 56 * t < 2 ^ 64 := Nat.lt_of_le_of_lt (Nat.le_add_right _ _) hlt64
  have hval : to_value t e = 2 ^ 56 * t + e := by
    rw [to_value, hand, hshift, Nat.mod_eq_of_lt hsmall, hor, Nat.mod_eq_of_lt hlt64]
  refine ⟨?_, ?_, ?_⟩
  · rw [get_thread_id, hval]
    show (2 ^ 56 * t + e) >>> 56 = t
    rw [Nat.shiftRight_eq_div_pow, Nat.mul_add_div (by positivity),
      Nat.div_eq_of_lt he', Nat.add_zero]
  · rw [get_elem_id, hval, hm, Nat.and_pow_two_sub_one_eq_mod, Nat.mul_add_mod,
      Nat.mod_eq_of_lt he']
  · intro n hn
    have h255 : (1 <<< bitsForThreadId) - 1 = 255 := by decide
    rw [qualityThreadGuardExitCode, h255, if_pos hn]

/-- Witness for C10 at `t = 3`, `e = 7`. -/
theorem value_packing_roundtrip_witness :
    get_thread_id (to_value 3 7) = 3 ∧ get_elem_id (to_value 3 7) = 7 ∧
    ∀ n : Nat, 255 < n → qualityThreadGuardExitCode n = some 1 :=
  value_packing_roundtrip 3 7 (by decide) (by decide)

end StressTest

namespace ThroughputBench

/-- C7 (amended): `Settings::validate` returns `false` — and `main` then
exits with code 1 before any worker thread starts — for every settings
combination with `min_key > max_key`, and for every split-mode
combination with `num_push_threads == 0` and a nonzero element count; in
particular this covers `prefill_per_thread = 0` with split mode, no push
threads and a nonzero element count. -/
theorem validate_rejects_bad_configs (s : Settings) :
    (s.max_key < s.min_key → s.validate = false ∧ configExitCode s = some 1) ∧
    (s.work_mode = WorkMode.Split → s.num_push_threads = 0 →
      0 < s.elements_per_thread →
      s.validate = false ∧ configExitCode s = some 1) := by
  have hkey : s.max_key < s.min_key → s.validate = false := by
    intro h
    unfold Settings.validate
    split_ifs <;> first | rfl | omega
  have hsplit : s.work_mode = WorkMode.Split → s.num_push_threads = 0 →
      0 < s.elements_per_thread → s.validate = false := by
    intro hw hp he
    unfold Settings.validate
    split_ifs with h1 h2 h3 h4
    · rfl
    · rfl
    · rfl
    · rfl
    · exact absurd ⟨hw, Or.inr ⟨hp, he⟩⟩ h3
  refine ⟨fun h => ⟨hkey h, ?_⟩, fun hw hp he => ⟨hsplit hw hp he, ?_⟩⟩
  · rw [configExitCode, hkey h]; rfl
  · rw [configExitCode, hsplit hw hp he]; rfl

/-- Witness for C7 at concrete rejected settings: threads 1, prefill 0,
one element per thread, split mode, no push threads. -/
theorem validate_rejects_bad_configs_witness :
    Settings.validate ⟨1, 0, 1, WorkMode.Split, 0, ElementDistribution.Uniform, 1, 2, 1⟩ =
        false ∧
    configExitCode ⟨1, 0, 1, WorkMode.Split, 0, ElementDistribution.Uniform, 1, 2, 1⟩ =
        some 1 :=
  (validate_rejects_bad_configs
      ⟨1, 0, 1, WorkMode.Split, 0, ElementDistribution.Uniform, 1, 2, 1⟩).2
    rfl rfl (by decide)

/-- Counterexample for C7 as stated: with split mode, no push threads and
prefill 0 but also an element count of 0, `validate` accepts the
configuration (the rejection clause requires a nonzero element stream),
so "prefill = 0 with split mode and num_push_threads = 0 rejects at
config time" is false without the nonzero-element qualification. -/
theorem validate_accepts_split_no_push_no_elements :
    Settings.validate ⟨1, 0, 0, WorkMode.Split, 0, ElementDistribution.Uniform, 1, 2, 1⟩ =
        true ∧
    configExitCode ⟨1, 0, 0, WorkMode.Split, 0, ElementDistribution.Uniform, 1, 2, 1⟩ =
        none := by
  exact ⟨by decide, by decide⟩

/-- C6: evaluating `Result::update_work_time` at a single reported work
interval `(5, 5)` leaves `end_time` at `timepoint_type::min()` instead of
the maximum reported end tick 5: the second CAS loop seeds its expected
value from `start_time` (`throughput.cpp` line 173), so its guard
`work_time.second > old_end` compares the interval's end against the
freshly written minimum start and skips the update. -/
theorem updateWorkTime_misses_max_end :
    (aggregateWorkTime [(5, 5)]).end_time = timepointMin ∧
    (aggregateWorkTime [(5, 5)]).start_time = 5 ∧ timepointMin ≠ 5 := by
  refine ⟨by decide, by decide, by decide⟩

end ThroughputBench

namespace ThroughputBench

theorem pendingSum_nil : pendingSum [] = 0 := rfl

theorem pendingSum_cons (x : PopWorker) (l : List PopWorker) :
    pendingSum (x :: l) = x.pending + pendingSum l := by
  simp [pendingSum]

theorem pendingSum_set (ws : List PopWorker) (w : Nat) (pw pw' : PopWorker)
    (h : ws.get? w = some pw) :
    pendingSum (ws.set w pw') + pw.pending = pendingSum ws + pw'.pending := by
  induction ws generalizing w with
  | nil => simp at h
  | cons x xs ih =>
    cases w with
    | zero =>
      simp only [List.get?] at h
      cases h
      simp only [List.set, pendingSum_cons]
      omega
    | succ n =>
      simp only [List.get?] at h
      simp only [List.set, pendingSum_cons]
      have := ih n h
      omega

theorem splitPopInv_init (target k : Nat) : SplitPopInv target (initSplitPop k) := by
  refine ⟨?_, Nat.zero_le _, ?_⟩
  · simp [initSplitPop, pendingSum, List.map_replicate]
  · intro pw hmem hstop
    have := List.eq_of_mem_replicate hmem
    subst this
    simp at hstop

theorem splitPopInv_step {target : Nat} {s t : SplitPopState}
    (hs : SplitPopInv target s) (h : SplitPopStep target s t) :
    SplitPopInv target t := by
  obtain ⟨hsum, hle, hstop⟩ := hs
  cases h with
  | push hp =>
    exact ⟨by dsimp only; omega, by dsimp only; omega,
      fun pw hmem h' => hstop pw hmem h'⟩
  | popOne w pw hw hws hq =>
    have hset := pendingSum_set s.workers w pw ⟨pw.pending + 1, false⟩ hw
    dsimp only at hset
    refine ⟨by dsimp only; omega, hle, ?_⟩
    intro x hmem h'
    rcases List.mem_or_eq_of_mem_set hmem with hx | hx
    · exact hstop x hx h'
    · subst hx; simp at h'
  | zeroCheckStop w pw hw hws hpend hge =>
    have hset := pendingSum_set s.workers w pw ⟨0, true⟩ hw
    dsimp only at hset
    have hnum : s.num_pops = target := by omega
    refine ⟨by dsimp only; omega, hle, ?_⟩
    intro x hmem h'
    rcases List.mem_or_eq_of_mem_set hmem with hx | hx
    · exact hstop x hx h'
    · exact hnum
  | batchStop w pw hw hws hpend hge =>
    have hset := pendingSum_set s.workers w pw ⟨0, true⟩ hw
    dsimp only at hset
    have hnum : s.num_pops + pw.pending = target := by omega
    refine ⟨by dsimp only; omega, hle, ?_⟩
    intro x hmem h'
    rcases List.mem_or_eq_of_mem_set hmem with hx | hx
    · exfalso
      have := hstop x hx h'
      omega
    · dsimp only
      exact hnum
  | batchCont w pw hw hws hpend hlt =>
    have hset := pendingSum_set s.workers w pw ⟨0, false⟩ hw
    dsimp only at hset
    refine ⟨by dsimp only; omega, hle, ?_⟩
    intro x hmem h'
    rcases List.mem_or_eq_of_mem_set hmem with hx | hx
    · exfalso
      have := hstop x hx h'
      omega
    · subst hx; simp at h'

theorem splitPopInv_reachable {target : Nat} {s : SplitPopState} (k : Nat)
    (h : Relation.ReflTransGen (SplitPopStep target) (initSplitPop k) s) :
    SplitPopInv target s := by
  induction h with
  | refl => exact splitPopInv_init target k
  | tail _ hstep ih => exact splitPopInv_step ih hstep

/-- C1: in split mode with `N ≥ 1` threads, `P ≤ N` push threads, prefill
`F` and element count `E` per thread, in every reachable state of the
run in which some pop-only worker has exited its loop (in particular at
the assertion after the pop loop), the cumulative `Result::num_pops`
equals `(F + E) * N` exactly, regardless of the split. -/
theorem split_pop_accounting (F E N P : Nat) (hN : 1 ≤ N) (hP : P ≤ N)
    (s : SplitPopState)
    (hr : Relation.ReflTransGen (SplitPopStep ((F + E) * N)) (initSplitPop (N - P)) s)
    (w : Nat) (pw : PopWorker) (hw : s.workers.get? w = some pw)
    (hstop : pw.stopped = true) :
    s.num_pops = (F + E) * N := by
  obtain ⟨-, -, hstopinv⟩ := splitPopInv_reachable (N - P) hr
  exact hstopinv pw (List.get?_mem hw) hstop

/-- Witness for C1: `N = 1`, `P = 0`, `F = 0`, `E = 1`; the single pop
worker pushes, pops and breaks after its `fetch_add`, and the counter is
exactly `(0 + 1) * 1 = 1`. -/
theorem split_pop_accounting_witness :
    (SplitPopState.mk 1 0 1 [⟨0, true⟩]).num_pops = (0 + 1) * 1 := by
  have h1 : SplitPopStep 1 (initSplitPop 1) ⟨1, 1, 0, [⟨0, false⟩]⟩ :=
    SplitPopStep.push (initSplitPop 1) (by decide)
  have h2 : SplitPopStep 1 ⟨1, 1, 0, [⟨0, false⟩]⟩ ⟨1, 0, 0, [⟨1, false⟩]⟩ :=
    SplitPopStep.popOne ⟨1, 1, 0, [⟨0, false⟩]⟩ 0 ⟨0, false⟩ rfl rfl (by decide)
  have h3 : SplitPopStep 1 ⟨1, 0, 0, [⟨1, false⟩]⟩ ⟨1, 0, 1, [⟨0, true⟩]⟩ :=
    SplitPopStep.batchStop ⟨1, 0, 0, [⟨1, false⟩]⟩ 0 ⟨1, false⟩ rfl rfl (by decide) (by decide)
  exact split_pop_accounting 0 1 1 0 (by decide) (by decide) _
    (Relation.ReflTransGen.tail
      (Relation.ReflTransGen.tail (Relation.ReflTransGen.tail Relation.ReflTransGen.refl h1) h2)
      h3)
    0 ⟨0, true⟩ rfl rfl

end ThroughputBench

namespace ShortestPath

theorem contrib_le_two (st : Nat) : contrib st ≤ 2 := by
  unfold contrib; split_ifs <;> omega

theorem contrib_eq_two_iff (st : Nat) : contrib st = 2 ↔ st = 2 := by
  unfold contrib; split_ifs <;> simp_all

theorem nat_sum_le_two {l : List Nat} (hb : ∀ x ∈ l, x ≤ 2) :
    l.sum ≤ 2 * l.length := by
  induction l with
  | nil => simp
  | cons a t ih =>
    have ha := hb a (List.mem_cons_self a t)
    have := ih fun x hx => hb x (List.mem_cons_of_mem a hx)
    simp only [List.sum_cons, List.length_cons]
    omega

theorem nat_sum_all_two {l : List Nat} (hb : ∀ x ∈ l, x ≤ 2)
    (hs : l.sum = 2 * l.length) : ∀ x ∈ l, x = 2 := by
  induction l with
  | nil => intro x hx; simp at hx
  | cons a t ih =>
    have hb' : ∀ x ∈ t, x ≤ 2 := fun x hx => hb x (List.mem_cons_of_mem a hx)
    have hsle := nat_sum_le_two hb'
    have ha := hb a (List.mem_cons_self a t)
    simp only [List.sum_cons, List.length_cons] at hs
    intro x hx
    rcases List.mem_cons.mp hx with rfl | hx'
    · omega
    · exact ih hb' (by omega) x hx'

theorem contribSum_cons (x : WorkerIdle) (l : List WorkerIdle) :
    contribSum (x :: l) = contrib x.state + contribSum l := by
  simp [contribSum]

theorem contribSum_set (ws : List WorkerIdle) (w : Nat) (pw pw' : WorkerIdle)
    (h : ws.get? w = some pw) :
    contribSum (ws.set w pw') + contrib pw.state =
      contribSum ws + contrib pw'.state := by
  induction ws generalizing w with
  | nil => simp at h
  | cons x xs ih =>
    cases w with
    | zero =>
      simp only [List.get?] at h
      cases h
      simp only [List.set, contribSum_cons]
      omega
    | succ n =>
      simp only [List.get?] at h
      simp only [List.set, contribSum_cons]
      have := ih n h
      omega

theorem all_state_two {ws : List WorkerIdle}
    (h : contribSum ws = 2 * ws.length) : ∀ pw ∈ ws, pw.state = 2 := by
  intro pw hpw
  have hall := nat_sum_all_two (l := ws.map fun x => contrib x.state)
    (by intro x hx
        obtain ⟨y, -, rfl⟩ := List.mem_map.mp hx
        exact contrib_le_two y.state)
    (by simpa [contribSum] using h)
  exact (contrib_eq_two_iff pw.state).mp
    (hall (contrib pw.state) (List.mem_map.mpr ⟨pw, hpw, rfl⟩))

theorem idleMaster_step {n : Nat} {s t : IdleSystem}
    (hlen : s.workers.length = n)
    (hinv : s.idle_counter = contribSum s.workers)
    (hterm : ∀ pw ∈ s.workers, pw.terminated = true → s.idle_counter = 2 * n)
    (h : IdleStep s t) :
    t.workers.length = n ∧ t.idle_counter = contribSum t.workers ∧
      ∀ pw ∈ t.workers, pw.terminated = true → t.idle_counter = 2 * n := by
  have hall : s.idle_counter = 2 * n → ∀ pw ∈ s.workers, pw.state = 2 := by
    intro hc
    exact all_state_two (by rw [← hinv, hc, hlen])
  cases h with
  | toProbing w pw hw hst hwterm =>
    have hset := contribSum_set s.workers w pw ⟨1, false⟩ hw
    rw [hst] at hset
    norm_num [contrib] at hset
    have hmem := List.get?_mem hw
    refine ⟨by simpa using hlen, by dsimp only; omega, ?_⟩
    intro x hx h'
    rcases List.mem_or_eq_of_mem_set hx with hx' | hx'
    · exfalso
      have h2n := hterm x hx' h'
      have := hall h2n pw hmem
      omega
    · subst hx'; simp at h'
  | probeSuccess w pw hw hst =>
    have hset := contribSum_set s.workers w pw ⟨0, false⟩ hw
    rw [hst] at hset
    norm_num [contrib] at hset
    have hmem := List.get?_mem hw
    refine ⟨by simpa using hlen, by dsimp only; omega, ?_⟩
    intro x hx h'
    rcases List.mem_or_eq_of_mem_set hx with hx' | hx'
    · exfalso
      have h2n := hterm x hx' h'
      have := hall h2n pw hmem
      omega
    · subst hx'; simp at h'
  | toIdle w pw hw hst =>
    have hset := contribSum_set s.workers w pw ⟨2, false⟩ hw
    rw [hst] at hset
    norm_num [contrib] at hset
    have hmem := List.get?_mem hw
    refine ⟨by simpa using hlen, by dsimp only; omega, ?_⟩
    intro x hx h'
    rcases List.mem_or_eq_of_mem_set hx with hx' | hx'
    · exfalso
      have h2n := hterm x hx' h'
      have := hall h2n pw hmem
      omega
    · subst hx'; simp at h'
  | wake v w pv pw hvw hv hst0 hvterm hw hst2 =>
    have hset := contribSum_set s.workers w pw ⟨0, pw.terminated⟩ hw
    rw [hst2] at hset
    norm_num [contrib] at hset
    have hmemv := List.get?_mem hv
    refine ⟨by simpa using hlen, by dsimp only; omega, ?_⟩
    intro x hx h'
    exfalso
    rcases List.mem_or_eq_of_mem_set hx with hx' | hx'
    · have h2n := hterm x hx' h'
      have := hall h2n pv hmemv
      omega
    · subst hx'
      have h2n := hterm pw (List.get?_mem hw) h'
      have := hall h2n pv hmemv
      omega
  | terminate w pw hw hst hwterm hc =>
    have hset := contribSum_set s.workers w pw ⟨2, true⟩ hw
    rw [hst] at hset
    norm_num [contrib] at hset
    refine ⟨by simpa using hlen, by dsimp only; omega, ?_⟩
    intro x hx h'
    dsimp only
    rw [hc, hlen]

theorem idleMaster_reachable {n : Nat} {s : IdleSystem}
    (h : Relation.ReflTransGen IdleStep (initIdle n) s) :
    s.workers.length = n ∧ s.idle_counter = contribSum s.workers ∧
      ∀ pw ∈ s.workers, pw.terminated = true → s.idle_counter = 2 * n := by
  induction h with
  | refl =>
    refine ⟨by simp [initIdle], ?_, ?_⟩
    · simp [initIdle, contribSum, contrib, List.map_replicate]
    · intro pw hpw h'
      have := List.eq_of_mem_replicate hpw
      subst this
      simp at h'
  | tail _ hstep ih => exact idleMaster_step ih.1 ih.2.1 ih.2.2 hstep

/-- C3: in every state of the termination-detection protocol reachable
from the zero-initialized start, `idle_counter` equals the sum of the
per-worker contributions (probing contributes 1, idle contributes 2,
active and wakeup contribute 0), and every further transition of a worker
or waker preserves that equality. -/
theorem idle_counter_invariant (n : Nat) (s : IdleSystem)
    (h : Relation.ReflTransGen IdleStep (initIdle n) s) :
    s.idle_counter = contribSum s.workers ∧
      ∀ t, IdleStep s t → t.idle_counter = contribSum t.workers := by
  obtain ⟨hlen, hinv, hterm⟩ := idleMaster_reachable h
  exact ⟨hinv, fun t hstep => (idleMaster_step hlen hinv hterm hstep).2.1⟩

/-- Witness for C3 at `n = 2`, at the initial state. -/
theorem idle_counter_invariant_witness :
    (initIdle 2).idle_counter = contribSum (initIdle 2).workers ∧
      ∀ t, IdleStep (initIdle 2) t → t.idle_counter = contribSum t.workers :=
  idle_counter_invariant 2 (initIdle 2) Relation.ReflTransGen.refl

/-- C5: once a reachable state of an `n`-worker SSSP run has
`idle_counter = 2 n`, every further protocol transition keeps it at
`2 n` (so the counter reaches `2 n` exactly once and never leaves it);
a worker exits the main loop only in a state where the counter is `2 n`;
and one check of the `idle()` wait loop terminates the worker iff it
observes `idle_counter == 2 n`, while it resumes popping (without
terminating) iff the counter differs and its own state was reset to
active by a waker. -/
theorem idle_counter_reaches_2n_once (n : Nat) (s : IdleSystem)
    (h : Relation.ReflTransGen IdleStep (initIdle n) s) :
    (s.idle_counter = 2 * n → ∀ t, IdleStep s t → t.idle_counter = 2 * n) ∧
    (∀ pw ∈ s.workers, pw.terminated = true → s.idle_counter = 2 * n) ∧
    (∀ c m own : Nat,
      (idleWaitDecision c m own = some true ↔ c = 2 * m) ∧
      (idleWaitDecision c m own = some false ↔ ¬ c = 2 * m ∧ own = 0)) := by
  obtain ⟨hlen, hinv, hterm⟩ := idleMaster_reachable h
  refine ⟨?_, hterm, ?_⟩
  · intro hc t hstep
    have hall : ∀ pw ∈ s.workers, pw.state = 2 :=
      all_state_two (by rw [← hinv, hc, hlen])
    cases hstep with
    | toProbing w pw hw hst hwterm =>
      exfalso
      have := hall pw (List.get?_mem hw)
      omega
    | probeSuccess w pw hw hst =>
      exfalso
      have := hall pw (List.get?_mem hw)
      omega
    | toIdle w pw hw hst =>
      exfalso
      have := hall pw (List.get?_mem hw)
      omega
    | wake v w pv pw hvw hv hst0 hvterm hw hst2 =>
      exfalso
      have := hall pv (List.get?_mem hv)
      omega
    | terminate w pw hw hst hwterm hc' =>
      exact hc
  · intro c m own
    unfold idleWaitDecision
    constructor
    · split_ifs <;> simp_all
    · split_ifs <;> simp_all

/-- Witness for C5 at `n = 1`, in the reachable all-idle state reached
by one worker probing and then idling. -/
theorem idle_counter_reaches_2n_once_witness :
    ((⟨2, [⟨2, false⟩]⟩ : IdleSystem).idle_counter = 2 * 1 →
      ∀ t, IdleStep ⟨2, [⟨2, false⟩]⟩ t → t.idle_counter = 2 * 1) ∧
    (∀ pw ∈ (⟨2, [⟨2, false⟩]⟩ : IdleSystem).workers, pw.terminated = true →
      (⟨2, [⟨2, false⟩]⟩ : IdleSystem).idle_counter = 2 * 1) ∧
    (∀ c m own : Nat,
      (idleWaitDecision c m own = some true ↔ c = 2 * m) ∧
      (idleWaitDecision c m own = some false ↔ ¬ c = 2 * m ∧ own = 0)) := by
  have h1 : IdleStep (initIdle 1) ⟨1, [⟨1, false⟩]⟩ :=
    IdleStep.toProbing (initIdle 1) 0 ⟨0, false⟩ rfl rfl rfl
  have h2 : IdleStep ⟨1, [⟨1, false⟩]⟩ ⟨2, [⟨2, false⟩]⟩ :=
    IdleStep.toIdle ⟨1, [⟨1, false⟩]⟩ 0 ⟨1, false⟩ rfl rfl
  exact idle_counter_reaches_2n_once 1 ⟨2, [⟨2, false⟩]⟩
    (Relation.ReflTransGen.tail (Relation.ReflTransGen.tail Relation.ReflTransGen.refl h1) h2)

end ShortestPath

namespace ShortestPath

theorem distStep_length {d d' : List Nat} (h : DistStep d d') :
    d'.length = d.length := by
  cases h with
  | relax v new old hget hlt => exact List.length_set _ v new

theorem distStep_mono {d d' : List Nat} (h : DistStep d d') (u x x' : Nat)
    (hx : d.get? u = some x) (hx' : d'.get? u = some x') :
    x' ≤ x ∧ (x' ≠ x → x' < x) := by
  cases h with
  | relax v new old hget hlt =>
    by_cases huv : v = u
    · subst huv
      rw [List.get?_set_eq, hget] at hx'
      simp only [Option.map_eq_map, Option.map_some'] at hx'
      cases hx'
      rw [hget] at hx
      cases hx
      exact ⟨Nat.le_of_lt hlt, fun _ => hlt⟩
    · rw [List.get?_set_ne new d huv] at hx'
      rw [hx] at hx'
      cases hx'
      exact ⟨Nat.le_refl x, fun hne => absurd rfl hne⟩

theorem distReach_mono {d d' : List Nat}
    (h : Relation.ReflTransGen DistStep d d') (u : Nat) :
    ∀ x x', d.get? u = some x → d'.get? u = some x' → x' ≤ x := by
  induction h with
  | refl =>
    intro x x' hx hx'
    rw [hx] at hx'
    cases hx'
    exact Nat.le_refl _
  | @tail b c hreach hstep ih =>
    intro x x' hx hx'
    obtain ⟨hltc, -⟩ := List.get?_eq_some.mp hx'
    have hltb : u < b.length := by
      have := distStep_length hstep
      omega
    have hx₁ : b.get? u = some (b.get ⟨u, hltb⟩) := List.get?_eq_get hltb
    exact Nat.le_trans (distStep_mono hstep u _ x' hx₁ hx').1
      (ih x (b.get ⟨u, hltb⟩) hx hx₁)

end ShortestPath

namespace ShortestPath

/-- C4: every cell of the distance array is initialized to
`UINT32_MAX - 1` before the run; the main worker then sets the source
cell (node 0) to 0, itself a strict decrease; and every committed write
of the run's CAS loop strictly decreases the stored value of its cell
while leaving the others unchanged, so along any run every cell is
monotonically non-increasing. -/
theorem distances_monotone (n : Nat) :
    (∀ v, v < n → (initDistances n).get? v = some initDistValue) ∧
    (0 < n → (sourcedDistances n).get? 0 = some 0 ∧ 0 < initDistValue) ∧
    (∀ d d' : List Nat, DistStep d d' → ∀ u x x',
      d.get? u = some x → d'.get? u = some x' → x' ≤ x ∧ (x' ≠ x → x' < x)) ∧
    (∀ d d' : List Nat, Relation.ReflTransGen DistStep d d' → ∀ u x x',
      d.get? u = some x → d'.get? u = some x' → x' ≤ x) := by
  refine ⟨?_, ?_, ?_, ?_⟩
  · intro v hv
    simp [initDistances, List.get?_eq_getElem?, List.getElem?_replicate, hv]
  · intro hn
    refine ⟨?_, by norm_num [initDistValue]⟩
    rw [sourcedDistances, List.get?_set_eq]
    have : (initDistances n).get? 0 = some initDistValue := by
      simp [initDistances, List.get?_eq_getElem?, List.getElem?_replicate, hn]
    rw [this]
    rfl
  · intro d d' hstep u x x' hx hx'
    exact distStep_mono hstep u x x' hx hx'
  · intro d d' hreach u x x' hx hx'
    exact distReach_mono hreach u x x' hx hx'

/-- Witness for C4: the 2-cell array, the committed write `7 → 3` in
cell 1 of `[5, 7]`, and the resulting monotonicity facts. -/
theorem distances_monotone_witness :
    (initDistances 2).get? 1 = some initDistValue ∧
    ((sourcedDistances 2).get? 0 = some 0 ∧ 0 < initDistValue) ∧
    (3 ≤ 7 ∧ ((3 : Nat) ≠ 7 → 3 < 7)) ∧ (3 : Nat) ≤ 7 := by
  have hstep : DistStep [5, 7] ([5, 7].set 1 3) :=
    DistStep.relax [5, 7] 1 3 7 rfl (by decide)
  refine ⟨(distances_monotone 2).1 1 (by decide),
    (distances_monotone 2).2.1 (by decide), ?_, ?_⟩
  · exact (distances_monotone 2).2.2.1 [5, 7] ([5, 7].set 1 3) hstep 1 7 3 rfl rfl
  · exact (distances_monotone 2).2.2.2 [5, 7] ([5, 7].set 1 3)
      (Relation.ReflTransGen.tail Relation.ReflTransGen.refl hstep) 1 7 3 rfl rfl

end ShortestPath

namespace ShortestPath

theorem getD_set_self {l : List Nat} {v a : Nat} (h : v < l.length) :
    (l.set v a).getD v 0 = a := by
  rw [List.getD_eq_getElem?_getD, List.getElem?_set_self h]
  rfl

theorem lt_length_of_getD_lt {l : List Nat} {v nd : Nat} (h : nd < l.getD v 0) :
    v < l.length := by
  by_contra hnot
  rw [List.getD_eq_default _ _ (Nat.le_of_not_lt hnot)] at h
  omega

theorem relaxLoop_cons_commit {dist : List Nat} {v w cur : Nat} {rest : List (Nat × Nat)}
    (h : (cur + w) % 2 ^ 32 < dist.getD v 0) :
    relaxLoop dist ((v, w) :: rest) cur =
      ((relaxLoop (dist.set v ((cur + w) % 2 ^ 32)) rest cur).1,
       ((cur + w) % 2 ^ 32, v) ::
         (relaxLoop (dist.set v ((cur + w) % 2 ^ 32)) rest cur).2.1,
       true) := by
  simp only [relaxLoop]
  rw [if_pos h]

theorem relaxLoop_cons_skip {dist : List Nat} {v w cur : Nat} {rest : List (Nat × Nat)}
    (h : ¬ (cur + w) % 2 ^ 32 < dist.getD v 0) :
    relaxLoop dist ((v, w) :: rest) cur = relaxLoop dist rest cur := by
  simp only [relaxLoop]
  rw [if_neg h]

theorem relaxLoop_pushes_iff (es : List (Nat × Nat)) :
    ∀ (dist : List Nat) (cur : Nat) (x : Nat × Nat),
      x ∈ (relaxLoop dist es cur).2.1 ↔
        ∃ j, ∃ hj : j < es.length,
          x = ((cur + (es.get ⟨j, hj⟩).2) % 2 ^ 32, (es.get ⟨j, hj⟩).1) ∧
          (cur + (es.get ⟨j, hj⟩).2) % 2 ^ 32 <
            (relaxLoop dist (es.take j) cur).1.getD (es.get ⟨j, hj⟩).1 0 ∧
          (relaxLoop dist (es.take (j + 1)) cur).1.getD (es.get ⟨j, hj⟩).1 0 =
            (cur + (es.get ⟨j, hj⟩).2) % 2 ^ 32 := by
  induction es with
  | nil =>
    intro dist cur x
    constructor
    · intro hx
      simp [relaxLoop] at hx
    · rintro ⟨j, hj, -⟩
      simp at hj
  | cons e rest ih =>
    obtain ⟨v, w⟩ := e
    intro dist cur x
    by_cases hc : (cur + w) % 2 ^ 32 < dist.getD v 0
    · have hvlen : v < dist.length := lt_length_of_getD_lt hc
      rw [relaxLoop_cons_commit hc]
      dsimp only
      rw [List.mem_cons, ih (dist.set v ((cur + w) % 2 ^ 32)) cur x]
      constructor
      · rintro (rfl | ⟨j, hj, hx, hlt, hset⟩)
        · refine ⟨0, by simp, ?_, ?_, ?_⟩
          · rfl
          · simpa [relaxLoop] using hc
          · rw [List.take_succ_cons, List.take_zero, relaxLoop_cons_commit hc]
            simpa [relaxLoop] using getD_set_self hvlen
        · refine ⟨j + 1, Nat.succ_lt_succ hj, ?_, ?_, ?_⟩
          · simpa [List.get_cons_succ] using hx
          · rw [List.take_succ_cons, relaxLoop_cons_commit hc]
            simpa [List.get_cons_succ] using hlt
          · rw [List.take_succ_cons, relaxLoop_cons_commit hc]
            simpa [List.get_cons_succ] using hset
      · rintro ⟨j, hj, hx, hlt, hset⟩
        cases j with
        | zero =>
          left
          simpa using hx
        | succ j' =>
          right
          refine ⟨j', Nat.lt_of_succ_lt_succ hj, ?_, ?_, ?_⟩
          · simpa [List.get_cons_succ] using hx
          · rw [List.take_succ_cons, relaxLoop_cons_commit hc] at hlt
            simpa [List.get_cons_succ] using hlt
          · rw [List.take_succ_cons, relaxLoop_cons_commit hc] at hset
            simpa [List.get_cons_succ] using hset
    · rw [relaxLoop_cons_skip hc]
      rw [ih dist cur x]
      constructor
      · rintro ⟨j, hj, hx, hlt, hset⟩
        refine ⟨j + 1, Nat.succ_lt_succ hj, ?_, ?_, ?_⟩
        · simpa [List.get_cons_succ] using hx
        · rw [List.take_succ_cons, relaxLoop_cons_skip hc]
          simpa [List.get_cons_succ] using hlt
        · rw [List.take_succ_cons, relaxLoop_cons_skip hc]
          simpa [List.get_cons_succ] using hset
      · rintro ⟨j, hj, hx, hlt, hset⟩
        cases j with
        | zero =>
          exfalso
          apply hc
          simpa [relaxLoop] using hlt
        | succ j' =>
          refine ⟨j', Nat.lt_of_succ_lt_succ hj, ?_, ?_, ?_⟩
          · simpa [List.get_cons_succ] using hx
          · rw [List.take_succ_cons, relaxLoop_cons_skip hc] at hlt
            simpa [List.get_cons_succ] using hlt
          · rw [List.take_succ_cons, relaxLoop_cons_skip hc] at hset
            simpa [List.get_cons_succ] using hset

end ShortestPath

namespace ShortestPath

/-- C2: for a popped element `(d, u)` whose distance satisfies the queue
invariant `distances[u] ≤ d` (every queue entry is pushed only after its
distance was committed, and distances never increase): if
`d > distances[u]` the element is discarded with no change to the
distance array and nothing pushed; otherwise `distances[u] = d`, the
edge loop relaxes from `d`, and a pair is pushed for an out-edge
`(u → v, w)` iff the CAS loop committed a strict decrease of
`distances[v]` to `d' = (d + w) mod 2^32` at that edge. -/
theorem sssp_relax_spec (dist : List Nat) (d u : Nat) (g : Graph)
    (hqueue : dist.getD u 0 ≤ d) :
    (dist.getD u 0 < d → processElement dist d u g = (dist, [], false)) ∧
    (¬ dist.getD u 0 < d →
      dist.getD u 0 = d ∧
      processElement dist d u g = relaxLoop dist (outEdges g u) d ∧
      ∀ x, x ∈ (processElement dist d u g).2.1 ↔
        ∃ j, ∃ hj : j < (outEdges g u).length,
          x = ((d + ((outEdges g u).get ⟨j, hj⟩).2) % 2 ^ 32,
               ((outEdges g u).get ⟨j, hj⟩).1) ∧
          (d + ((outEdges g u).get ⟨j, hj⟩).2) % 2 ^ 32 <
            (relaxLoop dist ((outEdges g u).take j) d).1.getD
              ((outEdges g u).get ⟨j, hj⟩).1 0 ∧
          (relaxLoop dist ((outEdges g u).take (j + 1)) d).1.getD
            ((outEdges g u).get ⟨j, hj⟩).1 0 =
            (d + ((outEdges g u).get ⟨j, hj⟩).2) % 2 ^ 32) := by
  constructor
  · intro hstale
    rw [processElement, if_pos hstale]
  · intro hfresh
    have heq : dist.getD u 0 = d := Nat.le_antisymm hqueue (Nat.le_of_not_lt hfresh)
    have hpe : processElement dist d u g = relaxLoop dist (outEdges g u) d := by
      rw [processElement, if_neg hfresh, heq]
    refine ⟨heq, hpe, ?_⟩
    intro x
    rw [hpe]
    exact relaxLoop_pushes_iff (outEdges g u) dist d x

/-- Witness for C2: graph with node 0 having out-edges `(1, 3)` and
`(2, 20)`, distances `[0, 10, 10]`, popped element `(0, 0)`: the first
edge commits `10 → 3` and pushes `(3, 1)`; the second does not commit
(`20 > 10`). -/
theorem sssp_relax_spec_witness :
    ((([0, 10, 10] : List Nat).getD 0 0 < 0 →
      processElement [0, 10, 10] 0 0 ⟨[0, 2, 2, 2], [(1, 3), (2, 20)]⟩ =
        ([0, 10, 10], [], false)) ∧
    (¬ ([0, 10, 10] : List Nat).getD 0 0 < 0 →
      ([0, 10, 10] : List Nat).getD 0 0 = 0 ∧
      processElement [0, 10, 10] 0 0 ⟨[0, 2, 2, 2], [(1, 3), (2, 20)]⟩ =
        relaxLoop [0, 10, 10] (outEdges ⟨[0, 2, 2, 2], [(1, 3), (2, 20)]⟩ 0) 0 ∧
      ∀ x, x ∈ (processElement [0, 10, 10] 0 0 ⟨[0, 2, 2, 2], [(1, 3), (2, 20)]⟩).2.1 ↔
        ∃ j, ∃ hj : j < (outEdges ⟨[0, 2, 2, 2], [(1, 3), (2, 20)]⟩ 0).length,
          x = ((0 + ((outEdges ⟨[0, 2, 2, 2], [(1, 3), (2, 20)]⟩ 0).get ⟨j, hj⟩).2) % 2 ^ 32,
               ((outEdges ⟨[0, 2, 2, 2], [(1, 3), (2, 20)]⟩ 0).get ⟨j, hj⟩).1) ∧
          (0 + ((outEdges ⟨[0, 2, 2, 2], [(1, 3), (2, 20)]⟩ 0).get ⟨j, hj⟩).2) % 2 ^ 32 <
            (relaxLoop [0, 10, 10] ((outEdges ⟨[0, 2, 2, 2], [(1, 3), (2, 20)]⟩ 0).take j) 0).1.getD
              ((outEdges ⟨[0, 2, 2, 2], [(1, 3), (2, 20)]⟩ 0).get ⟨j, hj⟩).1 0 ∧
          (relaxLoop [0, 10, 10] ((outEdges ⟨[0, 2, 2, 2], [(1, 3), (2, 20)]⟩ 0).take (j + 1)) 0).1.getD
            ((outEdges ⟨[0, 2, 2, 2], [(1, 3), (2, 20)]⟩ 0).get ⟨j, hj⟩).1 0 =
            (0 + ((outEdges ⟨[0, 2, 2, 2], [(1, 3), (2, 20)]⟩ 0).get ⟨j, hj⟩).2) % 2 ^ 32)) :=
  sssp_relax_spec [0, 10, 10] 0 0 ⟨[0, 2, 2, 2], [(1, 3), (2, 20)]⟩ (by decide)

end ShortestPath

namespace ThroughputBench

/-- C8: the key stream of a worker is a pure function of
`(seed, thread_id, distribution, min_key, max_key, count)` — the
per-worker engine is seeded only from `(seed, thread_id)` (modelled as
the abstract family `engine`), so two runs with the same tuple produce
identical key arrays — and the ascending stream satisfies the source
formula `keys[i] = min_key + (i * range) / keys.size()` (64-bit
arithmetic, `range = max_key - min_key + 1`) at each of the worker's
global indices `i = id * elements_per_thread + j`. -/
theorem workload_deterministic (dist : ElementDistribution)
    (min_key max_key E total id : Nat)
    (engine : Int → Int → Nat → Nat) (seed tid : Int) :
    (generateWorkloadSlice dist min_key max_key E total id (engine seed tid) =
      generateWorkloadSlice dist min_key max_key E total id (engine seed tid)) ∧
    (∀ j, j < E →
      (generateWorkloadSlice ElementDistribution.Ascending min_key max_key E total id
          (engine seed tid)).get? j =
        some (u64 (min_key +
          u64 ((id * E + j) * ((max_key - min_key + 1) % 2 ^ 64)) / total))) := by
  refine ⟨rfl, ?_⟩
  intro j hj
  rw [generateWorkloadSlice, List.get?_map, List.get?_range hj]
  rfl

/-- Witness for C8 at `E = 2`, `total = 4`, `id = 1`, keys `0..9`,
`j = 0` (global index 2, key `(2 * 10) / 4 = 5`). -/
theorem workload_deterministic_witness :
    (generateWorkloadSlice ElementDistribution.Ascending 0 9 2 4 1 ((fun _ _ _ => 0) 0 0) =
      generateWorkloadSlice ElementDistribution.Ascending 0 9 2 4 1 ((fun _ _ _ => 0) 0 0)) ∧
    (generateWorkloadSlice ElementDistribution.Ascending 0 9 2 4 1
        ((fun _ _ _ => 0) 0 0)).get? 0 =
      some (u64 (0 + u64 ((1 * 2 + 0) * ((9 - 0 + 1) % 2 ^ 64)) / 4)) :=
  ⟨(workload_deterministic ElementDistribution.Ascending 0 9 2 4 1 (fun _ _ _ => 0) 0 0).1,
   (workload_deterministic ElementDistribution.Ascending 0 9 2 4 1 (fun _ _ _ => 0) 0 0).2
     0 (by decide)⟩

end ThroughputBench

namespace ShortestPath

theorem readToken_ws (ws s : List Char) (h : ∀ c ∈ ws, isSpace c = true) :
    readToken (ws ++ s) = readToken s := by
  unfold readToken
  have hws : List.dropWhile isSpace ws = [] := List.dropWhile_eq_nil_iff.mpr h
  rw [List.dropWhile_append, hws]
  simp

theorem readGraphLoop_ws (fuel : Nat) (g : RawGraph) (ws s : List Char)
    (h : ∀ c ∈ ws, isSpace c = true) :
    readGraphLoop fuel g (ws ++ s) = readGraphLoop fuel g s := by
  cases fuel with
  | zero => rfl
  | succ fuel =>
    simp only [readGraphLoop]
    rw [readToken_ws ws s h]

theorem dropLine_comment (j rest : List Char) (hnl : '\n' ∉ j) :
    dropLine (j ++ '\n' :: rest) = rest := by
  unfold dropLine
  have hj : List.dropWhile (fun c => decide (c ≠ '\n')) j = [] := by
    refine List.dropWhile_eq_nil_iff.mpr ?_
    intro x hx
    simp only [decide_eq_true_eq]
    intro heq
    exact hnl (heq ▸ hx)
  rw [List.dropWhile_append, hj]
  simp

theorem readToken_comment (j rest : List Char)
    (hhead : j = [] ∨ isSpace (j.headD ' ') = true) :
    readToken ('c' :: (j ++ '\n' :: rest)) = some (['c'], j ++ '\n' :: rest) := by
  obtain ⟨a, t, heq, ha⟩ :
      ∃ a t, j ++ '\n' :: rest = a :: t ∧ isSpace a = true := by
    cases j with
    | nil => exact ⟨'\n', rest, rfl, by decide⟩
    | cons b j' =>
      rcases hhead with h | h
      · exact absurd h (by simp)
      · exact ⟨b, j' ++ '\n' :: rest, rfl, by simpa using h⟩
  unfold readToken
  rw [heq]
  have hc1 : isSpace 'c' = false := by decide
  have hc2 : (!isSpace 'c') = true := by decide
  have ha' : (!isSpace a) = false := by rw [ha]; rfl
  simp [List.dropWhile_cons, List.takeWhile_cons, hc1, hc2, ha, ha']

theorem readGraphLoop_comment (fuel : Nat) (g : RawGraph) (j rest : List Char)
    (hnl : '\n' ∉ j) (hhead : j = [] ∨ isSpace (j.headD ' ') = true) :
    readGraphLoop (fuel + 1) g ('c' :: (j ++ '\n' :: rest)) =
      readGraphLoop fuel g rest := by
  simp only [readGraphLoop]
  rw [readToken_comment j rest hhead]
  simp [dropLine_comment j rest hnl]

theorem readGraphLoop_reject (fuel : Nat) (g : RawGraph) (input : List Char)
    (tok rest : List Char) (ht : readToken input = some (tok, rest))
    (h1 : tok ≠ ['c']) (h2 : tok ≠ ['p']) (h3 : tok ≠ ['a']) :
    readGraphLoop (fuel + 1) g input = Except.error "Error reading file" := by
  simp only [readGraphLoop]
  rw [ht]
  dsimp only
  rw [if_neg h1, if_neg h2, if_neg h3]

theorem readGraphLoop_p (fuel : Nat) (g : RawGraph) (input : List Char)
    (rest prob rest1 : List Char) (n : Nat) (rest2 : List Char)
    (m : Nat) (rest3 : List Char)
    (ht : readToken input = some (['p'], rest))
    (hprob : readToken rest = some (prob, rest1))
    (hn : readNat rest1 = some (n, rest2))
    (hm : readNat rest2 = some (m, rest3)) :
    readGraphLoop (fuel + 1) g input = readGraphLoop fuel ⟨n, m, g.arcs⟩ rest3 := by
  simp only [readGraphLoop]
  rw [ht]
  dsimp only
  rw [if_neg (by decide : ¬ (['p'] : List Char) = ['c']), if_pos rfl, hprob]
  dsimp only
  rw [hn]
  dsimp only
  rw [hm]

theorem readGraphLoop_a (fuel : Nat) (g : RawGraph) (input : List Char)
    (rest : List Char) (u : Nat) (rest1 : List Char) (v : Nat)
    (rest2 : List Char) (w : Nat) (rest3 : List Char)
    (ht : readToken input = some (['a'], rest))
    (hu : readNat rest = some (u, rest1))
    (hv : readNat rest1 = some (v, rest2))
    (hw : readNat rest2 = some (w, rest3)) :
    readGraphLoop (fuel + 1) g input =
      readGraphLoop fuel ⟨g.numNodes, g.numEdges, g.arcs ++ [(u, v, w)]⟩ rest3 := by
  simp only [readGraphLoop]
  rw [ht]
  dsimp only
  rw [if_neg (by decide : ¬ (['a'] : List Char) = ['c']),
    if_neg (by decide : ¬ (['a'] : List Char) = ['p']), if_pos rfl, hu]
  dsimp only
  rw [hv]
  dsimp only
  rw [hw]

end ShortestPath

namespace ShortestPath

/-- C9: the `read_graph` scanner is insensitive to extra whitespace
between tokens; a line whose leading token is exactly `c` is skipped up
to and including its newline; a leading `p` token parses the problem
word and the two header counts and an `a` token parses the three arc
numbers, continuing the scan; any other leading token throws
"Error reading file"; and a throwing `read_graph` makes the SSSP driver
exit with code 1 before any worker thread is started. -/
theorem read_graph_scanner_spec :
    (∀ (fuel : Nat) (g : RawGraph) (ws s : List Char),
      (∀ c ∈ ws, isSpace c = true) →
      readGraphLoop fuel g (ws ++ s) = readGraphLoop fuel g s) ∧
    (∀ (fuel : Nat) (g : RawGraph) (j rest : List Char),
      '\n' ∉ j → (j = [] ∨ isSpace (j.headD ' ') = true) →
      readGraphLoop (fuel + 1) g ('c' :: (j ++ '\n' :: rest)) =
        readGraphLoop fuel g rest) ∧
    (∀ (fuel : Nat) (g : RawGraph) (input tok rest : List Char),
      readToken input = some (tok, rest) →
      tok ≠ ['c'] → tok ≠ ['p'] → tok ≠ ['a'] →
      readGraphLoop (fuel + 1) g input = Except.error "Error reading file") ∧
    (∀ (fuel : Nat) (g : RawGraph) (input rest prob rest1 : List Char)
      (n : Nat) (rest2 : List Char) (m : Nat) (rest3 : List Char),
      readToken input = some (['p'], rest) →
      readToken rest = some (prob, rest1) →
      readNat rest1 = some (n, rest2) →
      readNat rest2 = some (m, rest3) →
      readGraphLoop (fuel + 1) g input = readGraphLoop fuel ⟨n, m, g.arcs⟩ rest3) ∧
    (∀ (fuel : Nat) (g : RawGraph) (input rest : List Char) (u : Nat)
      (rest1 : List Char) (v : Nat) (rest2 : List Char) (w : Nat) (rest3 : List Char),
      readToken input = some (['a'], rest) →
      readNat rest = some (u, rest1) →
      readNat rest1 = some (v, rest2) →
      readNat rest2 = some (w, rest3) →
      readGraphLoop (fuel + 1) g input =
        readGraphLoop fuel ⟨g.numNodes, g.numEdges, g.arcs ++ [(u, v, w)]⟩ rest3) ∧
    (∀ (input : List Char) (e : String),
      readGraph input = Except.error e → graphReadExitCode input = some 1) := by
  refine ⟨readGraphLoop_ws, readGraphLoop_comment, readGraphLoop_reject,
    readGraphLoop_p, readGraphLoop_a, ?_⟩
  intro input e h
  unfold graphReadExitCode
  rw [h]

/-- Witness for C9: concrete instances of each part — a leading blank, a
pure comment line, the rejected token `x` (with the driver exiting 1),
and the lines `p sp 1 2` and `a 1 2 3`. -/
theorem read_graph_scanner_spec_witness :
    readGraphLoop 1 ⟨0, 0, []⟩ ([' '] ++ []) = readGraphLoop 1 ⟨0, 0, []⟩ [] ∧
    readGraphLoop 1 ⟨0, 0, []⟩ ('c' :: ([] ++ '\n' :: [])) = readGraphLoop 0 ⟨0, 0, []⟩ [] ∧
    readGraphLoop 1 ⟨0, 0, []⟩ ['x'] = Except.error "Error reading file" ∧
    readGraphLoop 1 ⟨0, 0, []⟩ ['p', ' ', 's', 'p', ' ', '1', ' ', '2'] =
      readGraphLoop 0 ⟨1, 2, []⟩ [] ∧
    readGraphLoop 1 ⟨0, 0, []⟩ ['a', ' ', '1', ' ', '2', ' ', '3'] =
      readGraphLoop 0 ⟨0, 0, [] ++ [(1, 2, 3)]⟩ [] ∧
    graphReadExitCode ['x'] = some 1 := by
  refine ⟨read_graph_scanner_spec.1 1 ⟨0, 0, []⟩ [' '] [] (by decide),
    read_graph_scanner_spec.2.1 0 ⟨0, 0, []⟩ [] [] (by simp) (Or.inl rfl),
    read_graph_scanner_spec.2.2.1 0 ⟨0, 0, []⟩ ['x'] ['x'] [] rfl
      (by decide) (by decide) (by decide),
    read_graph_scanner_spec.2.2.2.1 0 ⟨0, 0, []⟩
      ['p', ' ', 's', 'p', ' ', '1', ' ', '2'] _ _ _ 1 _ 2 _ rfl rfl rfl rfl,
    read_graph_scanner_spec.2.2.2.2.1 0 ⟨0, 0, []⟩
      ['a', ' ', '1', ' ', '2', ' ', '3'] _ 1 _ 2 _ 3 _ rfl rfl rfl rfl,
    read_graph_scanner_spec.2.2.2.2.2 ['x'] "Error reading file" rfl⟩

end ShortestPath
